import Mathlib

/-!
Verification of the output-delivery engine `pipecat/transports/base_output.py`
(class `BaseOutputTransport`).  Each Python function relevant to the stated
properties is shallowly embedded as an executable Lean definition; the
theorems below settle the claims about chunking, scheduling, interruption
handling, speaking-state tracking, pulse throttling and error handling.
-/

namespace Pipecat

/-- Subset of `TransportParams` consumed by `BaseOutputTransport`. -/
structure TransportParams where
  audio_out_enabled : Bool
  audio_out_sample_rate : Nat
  audio_out_channels : Nat
  audio_out_10ms_chunks : Nat
  video_out_enabled : Bool
  video_out_is_live : Bool
deriving DecidableEq

/-- The `audio_out_sample_rate` field of a `StartFrame`. -/
structure StartFrame where
  audio_out_sample_rate : Nat
deriving DecidableEq

/-- Embedding of `self._params.audio_out_sample_rate or frame.audio_out_sample_rate`
(Python `or`: `0` is falsy, so `0` means inherit the rate from the StartFrame). -/
def negotiated_sample_rate (params : TransportParams) (frame : StartFrame) : Nat :=
  if params.audio_out_sample_rate ≠ 0 then params.audio_out_sample_rate
  else frame.audio_out_sample_rate

/-- Embedding of `audio_bytes_10ms = int(self._sample_rate / 100) * self._params.audio_out_channels * 2`
from `start()` (line 84); machine floats never lose precision here for realistic
rates, so truncating float division is modelled as Nat division. -/
def audio_bytes_10ms (sample_rate channels : Nat) : Nat :=
  sample_rate / 100 * channels * 2

/-- Embedding of `self._audio_chunk_size = audio_bytes_10ms * self._params.audio_out_10ms_chunks`
from `start()` (line 85). -/
def audio_chunk_size (params : TransportParams) (sample_rate : Nat) : Nat :=
  audio_bytes_10ms sample_rate params.audio_out_channels * params.audio_out_10ms_chunks

/-- An `OutputAudioRawFrame` (or its subclass `TTSAudioRawFrame`, recorded by
the `isTTS` flag since `_handle_audio` rebuilds chunks with `cls = type(frame)`).
Audio payload bytes are modelled as a list of byte values. -/
structure AudioRawFrame where
  isTTS : Bool
  audio : List Nat
  sample_rate : Nat
  num_channels : Nat
deriving DecidableEq

/-- State touched by `_handle_audio`: the accumulator `self._audio_buffer` and
the audio chunks appended to `self._sink_queue` (restricted here to the audio
frames that `_handle_audio` enqueues). -/
structure AudioChunkerState where
  audio_buffer : List Nat
  sink_queue : List AudioRawFrame
deriving DecidableEq

/-- Embedding of the `while len(self._audio_buffer) >= self._audio_chunk_size`
loop of `_handle_audio` (lines 204-211): repeatedly slice an exact
`chunkSize`-byte prefix off the buffer; the remainder stays in the buffer.
(The `0 < chunkSize` guard makes the recursion terminate; with a zero chunk
size the Python loop would not terminate, and all theorems below assume a
positive chunk size.) -/
def drainChunksAux (chunkSize : Nat) : Nat → List Nat → List (List Nat) × List Nat
  | 0, buf => ([], buf)
  | fuel + 1, buf =>
    if 0 < chunkSize ∧ chunkSize ≤ buf.length then
      (buf.take chunkSize :: (drainChunksAux chunkSize fuel (buf.drop chunkSize)).1,
       (drainChunksAux chunkSize fuel (buf.drop chunkSize)).2)
    else
      ([], buf)

/-- The buffer length bounds the number of loop iterations (each iteration
consumes at least one byte), so it serves as structural fuel. -/
def drainChunks (chunkSize : Nat) (buf : List Nat) : List (List Nat) × List Nat :=
  drainChunksAux chunkSize buf.length buf

/-- Concatenation of a list of byte strings. -/
def bytesConcat : List (List Nat) → List Nat
  | [] => []
  | b :: bs => b ++ bytesConcat bs

/-- Embedding of `_handle_audio` (lines 192-211): if audio output is disabled
return unchanged; otherwise resample the frame's audio to the transport rate,
extend the accumulator, and enqueue every full chunk (rebuilt with the frame's
class, the transport sample rate and the frame's channel count) on the FIFO
sink queue.  The resampler is an arbitrary function parameter. -/
def handle_audio (params : TransportParams) (sampleRate chunkSize : Nat)
    (resample : List Nat → Nat → Nat → List Nat)
    (s : AudioChunkerState) (frame : AudioRawFrame) : AudioChunkerState :=
  if params.audio_out_enabled = false then s
  else
    { audio_buffer := (drainChunks chunkSize
        (s.audio_buffer ++ resample frame.audio frame.sample_rate sampleRate)).2,
      sink_queue := s.sink_queue ++ (drainChunks chunkSize
        (s.audio_buffer ++ resample frame.audio frame.sample_rate sampleRate)).1.map (fun c =>
        { isTTS := frame.isTTS, audio := c, sample_rate := sampleRate,
          num_channels := frame.num_channels }) }

/-- Folding `_handle_audio` over a sequence of incoming audio frames. -/
def handle_audio_seq (params : TransportParams) (sampleRate chunkSize : Nat)
    (resample : List Nat → Nat → Nat → List Nat)
    (s : AudioChunkerState) (frames : List AudioRawFrame) : AudioChunkerState :=
  frames.foldl (handle_audio params sampleRate chunkSize resample) s

theorem drainChunksAux_spec (chunkSize : Nat) (hcs : 0 < chunkSize) :
    ∀ (fuel : Nat) (buf : List Nat), buf.length ≤ fuel →
      (∀ c ∈ (drainChunksAux chunkSize fuel buf).1, c.length = chunkSize) ∧
      bytesConcat (drainChunksAux chunkSize fuel buf).1 ++
        (drainChunksAux chunkSize fuel buf).2 = buf ∧
      (drainChunksAux chunkSize fuel buf).2.length < chunkSize := by
  intro fuel
  induction fuel with
  | zero =>
    intro buf hb
    refine ⟨by simp [drainChunksAux], by simp [drainChunksAux, bytesConcat], ?_⟩
    show buf.length < chunkSize
    omega
  | succ fuel ih =>
    intro buf hb
    by_cases h : 0 < chunkSize ∧ chunkSize ≤ buf.length
    · rw [drainChunksAux, if_pos h]
      have hrest := ih (buf.drop chunkSize) (by simp only [List.length_drop]; omega)
      refine ⟨?_, ?_, hrest.2.2⟩
      · intro c hc
        rcases List.mem_cons.1 hc with rfl | hc
        · simp only [List.length_take]; omega
        · exact hrest.1 c hc
      · simp only [bytesConcat, List.append_assoc, hrest.2.1, List.take_append_drop]
    · rw [drainChunksAux, if_neg h]
      refine ⟨by simp, by simp [bytesConcat], ?_⟩
      show buf.length < chunkSize
      omega

theorem drainChunks_spec (chunkSize : Nat) (hcs : 0 < chunkSize) (buf : List Nat) :
    (∀ c ∈ (drainChunks chunkSize buf).1, c.length = chunkSize) ∧
    bytesConcat (drainChunks chunkSize buf).1 ++ (drainChunks chunkSize buf).2 = buf ∧
    (drainChunks chunkSize buf).2.length < chunkSize :=
  drainChunksAux_spec chunkSize hcs buf.length buf le_rfl

theorem handle_audio_step (params : TransportParams) (sampleRate chunkSize : Nat)
    (resample : List Nat → Nat → Nat → List Nat)
    (hen : params.audio_out_enabled = true) (hcs : 0 < chunkSize)
    (s : AudioChunkerState) (frame : AudioRawFrame) :
    (∀ f ∈ (handle_audio params sampleRate chunkSize resample s frame).sink_queue,
        f ∈ s.sink_queue ∨ f.audio.length = chunkSize) ∧
    bytesConcat ((handle_audio params sampleRate chunkSize resample s frame).sink_queue.map
        (fun f => f.audio)) ++
      (handle_audio params sampleRate chunkSize resample s frame).audio_buffer =
      bytesConcat (s.sink_queue.map (fun f => f.audio)) ++ s.audio_buffer ++
        resample frame.audio frame.sample_rate sampleRate ∧
    (handle_audio params sampleRate chunkSize resample s frame).audio_buffer.length
      < chunkSize := by
  have hspec := drainChunks_spec chunkSize hcs
    (s.audio_buffer ++ resample frame.audio frame.sample_rate sampleRate)
  have hconcat : ∀ (l1 l2 : List (List Nat)),
      bytesConcat (l1 ++ l2) = bytesConcat l1 ++ bytesConcat l2 := by
    intro l1 l2
    induction l1 with
    | nil => simp [bytesConcat]
    | cons b bs ih => simp [bytesConcat, ih]
  unfold handle_audio
  rw [if_neg (by simp [hen])]
  refine ⟨?_, ?_, hspec.2.2⟩
  · intro f hf
    simp only [List.mem_append, List.mem_map] at hf
    rcases hf with hf | ⟨c, hc, rfl⟩
    · exact Or.inl hf
    · exact Or.inr (hspec.1 c hc)
  · have hmap : List.map (fun (f : AudioRawFrame) => f.audio)
        ((drainChunks chunkSize
          (s.audio_buffer ++ resample frame.audio frame.sample_rate sampleRate)).1.map (fun c =>
          { isTTS := frame.isTTS, audio := c, sample_rate := sampleRate,
            num_channels := frame.num_channels })) =
        (drainChunks chunkSize
          (s.audio_buffer ++ resample frame.audio frame.sample_rate sampleRate)).1 := by
      induction (drainChunks chunkSize
          (s.audio_buffer ++ resample frame.audio frame.sample_rate sampleRate)).1 with
      | nil => rfl
      | cons b bs ih => simp only [List.map_cons, ih]
    rw [List.map_append, hconcat, hmap, List.append_assoc, hspec.2.1]
    simp [List.append_assoc]

/-- C1: for every sequence of audio frames handled after Start (empty
accumulator), every chunk enqueued on the FIFO queue has length exactly the
configured chunk size, and the concatenation of all enqueued chunks followed
by the bytes remaining in the accumulator equals the concatenation of the
resampled inputs, in input order. -/
theorem audio_chunker_exact_chunks_lossless
    (params : TransportParams) (sampleRate chunkSize : Nat)
    (resample : List Nat → Nat → Nat → List Nat)
    (frames : List AudioRawFrame)
    (hen : params.audio_out_enabled = true) (hcs : 0 < chunkSize) :
    (∀ f ∈ (handle_audio_seq params sampleRate chunkSize resample
        ⟨[], []⟩ frames).sink_queue, f.audio.length = chunkSize) ∧
    bytesConcat ((handle_audio_seq params sampleRate chunkSize resample
        ⟨[], []⟩ frames).sink_queue.map (fun f => f.audio)) ++
      (handle_audio_seq params sampleRate chunkSize resample ⟨[], []⟩ frames).audio_buffer =
      bytesConcat (frames.map (fun f => resample f.audio f.sample_rate sampleRate)) := by
  have main : ∀ (frames : List AudioRawFrame) (s : AudioChunkerState),
      (∀ f ∈ s.sink_queue, f.audio.length = chunkSize) →
      (∀ f ∈ (handle_audio_seq params sampleRate chunkSize resample s frames).sink_queue,
          f.audio.length = chunkSize) ∧
      bytesConcat ((handle_audio_seq params sampleRate chunkSize resample
          s frames).sink_queue.map (fun f => f.audio)) ++
        (handle_audio_seq params sampleRate chunkSize resample s frames).audio_buffer =
        bytesConcat (s.sink_queue.map (fun f => f.audio)) ++ s.audio_buffer ++
          bytesConcat (frames.map (fun f => resample f.audio f.sample_rate sampleRate)) := by
    intro frames
    induction frames with
    | nil => intro s hs; exact ⟨hs, by simp [handle_audio_seq, bytesConcat]⟩
    | cons frame rest ih =>
      intro s hs
      have hstep := handle_audio_step params sampleRate chunkSize resample hen hcs s frame
      have hq : ∀ f ∈ (handle_audio params sampleRate chunkSize resample s frame).sink_queue,
          f.audio.length = chunkSize := by
        intro f hf
        rcases hstep.1 f hf with hf' | hf'
        · exact hs f hf'
        · exact hf'
      have hrest := ih (handle_audio params sampleRate chunkSize resample s frame) hq
      refine ⟨?_, ?_⟩
      · simpa [handle_audio_seq] using hrest.1
      · have := hrest.2
        simp only [handle_audio_seq, List.foldl_cons] at *
        rw [this, hstep.2.1]
        simp [bytesConcat, List.append_assoc]
  have h := main frames ⟨[], []⟩ (by intro f hf; simp at hf)
  refine ⟨h.1, ?_⟩
  have := h.2
  simpa [bytesConcat] using this

/-- Witness for `audio_chunker_exact_chunks_lossless` at a concrete input:
two 5-byte frames with chunk size 4 (identity resampler). -/
theorem audio_chunker_exact_chunks_lossless_witness :
    ({ audio_out_enabled := true, audio_out_sample_rate := 0, audio_out_channels := 1,
       audio_out_10ms_chunks := 1, video_out_enabled := false,
       video_out_is_live := false } : TransportParams).audio_out_enabled = true ∧
    0 < 4 ∧
    ((∀ f ∈ (handle_audio_seq
        { audio_out_enabled := true, audio_out_sample_rate := 0, audio_out_channels := 1,
          audio_out_10ms_chunks := 1, video_out_enabled := false, video_out_is_live := false }
        400 4 (fun b _ _ => b) ⟨[], []⟩
        [⟨false, [1, 2, 3, 4, 5], 400, 1⟩, ⟨true, [6, 7, 8, 9, 10], 400, 1⟩]).sink_queue,
        f.audio.length = 4) ∧
      bytesConcat ((handle_audio_seq
        { audio_out_enabled := true, audio_out_sample_rate := 0, audio_out_channels := 1,
          audio_out_10ms_chunks := 1, video_out_enabled := false, video_out_is_live := false }
        400 4 (fun b _ _ => b) ⟨[], []⟩
        [⟨false, [1, 2, 3, 4, 5], 400, 1⟩, ⟨true, [6, 7, 8, 9, 10], 400, 1⟩]).sink_queue.map
          (fun f => f.audio)) ++
        (handle_audio_seq
        { audio_out_enabled := true, audio_out_sample_rate := 0, audio_out_channels := 1,
          audio_out_10ms_chunks := 1, video_out_enabled := false, video_out_is_live := false }
        400 4 (fun b _ _ => b) ⟨[], []⟩
        [⟨false, [1, 2, 3, 4, 5], 400, 1⟩, ⟨true, [6, 7, 8, 9, 10], 400, 1⟩]).audio_buffer =
        bytesConcat ([⟨false, [1, 2, 3, 4, 5], 400, 1⟩,
          (⟨true, [6, 7, 8, 9, 10], 400, 1⟩ : AudioRawFrame)].map
          (fun f => (fun b _ _ => b) f.audio f.sample_rate 400))) :=
  ⟨rfl, by decide,
    audio_chunker_exact_chunks_lossless _ 400 4 (fun b _ _ => b) _ rfl (by decide)⟩

/-- Concrete parameters of the worked example: 16 kHz mono with two 10 ms
chunks per write. -/
def exampleParams : TransportParams :=
  { audio_out_enabled := true, audio_out_sample_rate := 16000, audio_out_channels := 1,
    audio_out_10ms_chunks := 2, video_out_enabled := false, video_out_is_live := false }

/-- C6: the chunk size computed at Start equals
`(sample_rate / 100) * channels * 2 * audio_out_10ms_chunks`; for 16 kHz mono
with 2 chunks per 10 ms the chunk size is 640 bytes, and feeding 1000 bytes of
resampled audio yields exactly one 640-byte chunk and a 360-byte remainder. -/
theorem chunk_size_formula_and_example :
    (∀ (params : TransportParams) (frame : StartFrame),
      audio_chunk_size params (negotiated_sample_rate params frame) =
        negotiated_sample_rate params frame / 100 * params.audio_out_channels * 2 *
          params.audio_out_10ms_chunks) ∧
    audio_chunk_size exampleParams (negotiated_sample_rate exampleParams ⟨24000⟩) = 640 ∧
    (handle_audio exampleParams 16000 640 (fun b _ _ => b) ⟨[], []⟩
      ⟨false, List.replicate 1000 0, 16000, 1⟩).sink_queue.map (fun f => f.audio.length) =
      [640] ∧
    (handle_audio exampleParams 16000 640 (fun b _ _ => b) ⟨[], []⟩
      ⟨false, List.replicate 1000 0, 16000, 1⟩).audio_buffer.length = 360 :=
  ⟨fun _ _ => rfl, rfl,
    by set_option maxRecDepth 100000 in decide,
    by set_option maxRecDepth 100000 in decide⟩

/-- An `OutputImageRawFrame` or `SpriteFrame`, identified by an id. -/
structure ImageFrame where
  isSprite : Bool
  id : Nat
deriving DecidableEq

/-- The two queues that `_handle_image` can touch. -/
structure ImageRouterState where
  video_out_queue : List ImageFrame
  sink_queue : List ImageFrame
deriving DecidableEq

/-- Embedding of `_handle_image` (lines 213-220): drop the frame when video
output is disabled, otherwise route it to the live video queue or the FIFO
sink queue. -/
def handle_image (params : TransportParams) (s : ImageRouterState) (frame : ImageFrame) :
    ImageRouterState :=
  if params.video_out_enabled = false then s
  else if params.video_out_is_live then
    { s with video_out_queue := s.video_out_queue ++ [frame] }
  else
    { s with sink_queue := s.sink_queue ++ [frame] }

/-- C10: with `audio_out_enabled = false` an audio frame leaves the chunker
state (accumulator and queue) unchanged, and with `video_out_enabled = false`
an image or sprite frame leaves both image queues unchanged. -/
theorem disabled_media_frames_dropped :
    (∀ (params : TransportParams) (sampleRate chunkSize : Nat)
       (resample : List Nat → Nat → Nat → List Nat)
       (s : AudioChunkerState) (frame : AudioRawFrame),
       params.audio_out_enabled = false →
       handle_audio params sampleRate chunkSize resample s frame = s) ∧
    (∀ (params : TransportParams) (s : ImageRouterState) (frame : ImageFrame),
       params.video_out_enabled = false →
       handle_image params s frame = s) := by
  constructor
  · intro params sr cs resample s frame hdis
    simp [handle_audio, hdis]
  · intro params s frame hdis
    simp [handle_image, hdis]

/-- Parameters with both output media disabled, for the witness below. -/
def disabledParams : TransportParams :=
  { audio_out_enabled := false, audio_out_sample_rate := 0, audio_out_channels := 1,
    audio_out_10ms_chunks := 1, video_out_enabled := false, video_out_is_live := false }

/-- Witness for `disabled_media_frames_dropped` at concrete inputs. -/
theorem disabled_media_frames_dropped_witness :
    (disabledParams.audio_out_enabled = false ∧
      handle_audio disabledParams 16000 640 (fun b _ _ => b) ⟨[9], []⟩
        ⟨false, [1, 2], 8000, 1⟩ = ⟨[9], []⟩) ∧
    (disabledParams.video_out_enabled = false ∧
      handle_image disabledParams ⟨[⟨false, 3⟩], []⟩ ⟨true, 7⟩ = ⟨[⟨false, 3⟩], []⟩) :=
  ⟨⟨rfl, disabled_media_frames_dropped.1 disabledParams 16000 640 (fun b _ _ => b)
      ⟨[9], []⟩ ⟨false, [1, 2], 8000, 1⟩ rfl⟩,
   ⟨rfl, disabled_media_frames_dropped.2 disabledParams ⟨[⟨false, 3⟩], []⟩ ⟨true, 7⟩ rfl⟩⟩

/-- An entry of `self._sink_clock_queue`: frames are inserted as tuples
`(timestamp, frame.id, frame)` (line 172), so the heap orders them by
timestamp with the frame id as tie-break.  The payload is reduced to the
`isEnd` tag (whether the frame is an `EndFrame`). -/
structure ClockEntry where
  timestamp : Nat
  id : Nat
  isEnd : Bool
deriving DecidableEq

/-- Non-strict (timestamp, id) lexicographic order used by the priority queue. -/
def keyLE (a b : ClockEntry) : Prop :=
  a.timestamp < b.timestamp ∨ (a.timestamp = b.timestamp ∧ a.id ≤ b.id)

/-- Strict (timestamp, id) lexicographic order. -/
def keyLt (a b : ClockEntry) : Prop :=
  a.timestamp < b.timestamp ∨ (a.timestamp = b.timestamp ∧ a.id < b.id)

/-- Two entries have different (timestamp, id) scheduling keys. -/
def keyNe (a b : ClockEntry) : Prop :=
  (a.timestamp, a.id) ≠ (b.timestamp, b.id)

instance (a b : ClockEntry) : Decidable (keyLE a b) := by unfold keyLE; infer_instance

instance (a b : ClockEntry) : Decidable (keyLt a b) := by unfold keyLt; infer_instance

instance (a b : ClockEntry) : Decidable (keyNe a b) := by unfold keyNe; infer_instance

theorem keyLE_refl (a : ClockEntry) : keyLE a a := Or.inr ⟨rfl, le_rfl⟩

theorem keyLE_total (a b : ClockEntry) : keyLE a b ∨ keyLE b a := by
  unfold keyLE; omega

theorem keyLE_trans {a b c : ClockEntry} (h1 : keyLE a b) (h2 : keyLE b c) : keyLE a c := by
  unfold keyLE at *; omega

theorem keyLt_of_keyLE_ne {a b : ClockEntry} (h1 : keyLE a b) (h2 : keyNe a b) : keyLt a b := by
  unfold keyLE keyNe keyLt at *
  simp only [ne_eq, Prod.mk.injEq, not_and] at h2
  omega

theorem keyNe_symm {a b : ClockEntry} (h : keyNe a b) : keyNe b a := Ne.symm h

instance : IsAntisymm ClockEntry keyLt :=
  ⟨by intro a b h1 h2; exfalso; unfold keyLt at h1 h2; omega⟩

/-- Minimum of a nonempty collection of clock entries under the (timestamp, id)
key; this is the entry `heapq` pops first. -/
def findMin : ClockEntry → List ClockEntry → ClockEntry
  | m, [] => m
  | m, x :: xs => if keyLE m x then findMin m xs else findMin x xs

theorem findMin_mem (m : ClockEntry) (xs : List ClockEntry) : findMin m xs ∈ m :: xs := by
  induction xs generalizing m with
  | nil => simp [findMin]
  | cons x xs ih =>
    rw [findMin]
    split
    · have h := ih m
      simp only [List.mem_cons] at h ⊢
      tauto
    · have h := ih x
      simp only [List.mem_cons] at h ⊢
      tauto

theorem findMin_le (m : ClockEntry) (xs : List ClockEntry) :
    ∀ y ∈ m :: xs, keyLE (findMin m xs) y := by
  induction xs generalizing m with
  | nil =>
    intro y hy
    simp only [List.mem_cons, List.not_mem_nil, or_false] at hy
    subst hy
    exact keyLE_refl y
  | cons x xs ih =>
    intro y hy
    by_cases hmx : keyLE m x
    · rw [findMin, if_pos hmx]
      rcases List.mem_cons.1 hy with rfl | hy'
      · exact ih y y (List.mem_cons_self y xs)
      · rcases List.mem_cons.1 hy' with rfl | hy''
        · exact keyLE_trans (ih m m (List.mem_cons_self m xs)) hmx
        · exact ih m y (List.mem_cons_of_mem m hy'')
    · have hxm : keyLE x m := (keyLE_total m x).resolve_left hmx
      rw [findMin, if_neg hmx]
      rcases List.mem_cons.1 hy with rfl | hy'
      · exact keyLE_trans (ih x x (List.mem_cons_self x xs)) hxm
      · exact ih x y hy'

def drainClockAux : Nat → List ClockEntry → List ClockEntry
  | 0, _ => []
  | fuel + 1, l =>
    match l with
    | [] => []
    | x :: xs => findMin x xs :: drainClockAux fuel ((x :: xs).erase (findMin x xs))

/-- Embedding of the drain order of `self._sink_clock_queue`
(`asyncio.PriorityQueue`, created line 248, drained line 273): repeatedly pop
the entry with the least (timestamp, id) key.  Each pop removes one entry, so
the queue length serves as structural fuel. -/
def drainClock (l : List ClockEntry) : List ClockEntry := drainClockAux l.length l

theorem drainClockAux_perm :
    ∀ (fuel : Nat) (l : List ClockEntry), l.length ≤ fuel →
      (drainClockAux fuel l).Perm l := by
  intro fuel
  induction fuel with
  | zero =>
    intro l hl
    have h0 : l = [] := List.length_eq_zero.1 (Nat.le_zero.1 hl)
    subst h0
    exact List.Perm.refl _
  | succ fuel ih =>
    intro l hl
    match l with
    | [] => exact List.Perm.refl _
    | x :: xs =>
      have hm : findMin x xs ∈ x :: xs := findMin_mem x xs
      have hlen : ((x :: xs).erase (findMin x xs)).length ≤ fuel := by
        have h1 := List.length_erase_add_one hm
        simp only [List.length_cons] at h1 hl
        omega
      show (findMin x xs :: drainClockAux fuel ((x :: xs).erase (findMin x xs))).Perm (x :: xs)
      exact (List.Perm.cons _ (ih _ hlen)).trans (List.perm_cons_erase hm).symm

theorem drainClock_perm (l : List ClockEntry) : (drainClock l).Perm l :=
  drainClockAux_perm l.length l le_rfl

theorem drainClockAux_sorted :
    ∀ (fuel : Nat) (l : List ClockEntry), l.length ≤ fuel →
      List.Pairwise keyLE (drainClockAux fuel l) := by
  intro fuel
  induction fuel with
  | zero => intro l _; simp [drainClockAux]
  | succ fuel ih =>
    intro l hl
    match l with
    | [] => simp [drainClockAux]
    | x :: xs =>
      have hm : findMin x xs ∈ x :: xs := findMin_mem x xs
      have hlen : ((x :: xs).erase (findMin x xs)).length ≤ fuel := by
        have h1 := List.length_erase_add_one hm
        simp only [List.length_cons] at h1 hl
        omega
      show List.Pairwise keyLE
        (findMin x xs :: drainClockAux fuel ((x :: xs).erase (findMin x xs)))
      rw [List.pairwise_cons]
      refine ⟨?_, ih _ hlen⟩
      intro y hy
      have hy1 : y ∈ (x :: xs).erase (findMin x xs) :=
        ((drainClockAux_perm fuel _ hlen).mem_iff).1 hy
      exact findMin_le x xs y (List.mem_of_mem_erase hy1)

theorem drainClock_sorted (l : List ClockEntry) : List.Pairwise keyLE (drainClock l) :=
  drainClockAux_sorted l.length l le_rfl

theorem drainClock_sorted_strict (l : List ClockEntry)
    (hkeys : List.Pairwise keyNe l) : List.Pairwise keyLt (drainClock l) := by
  have hne : List.Pairwise keyNe (drainClock l) :=
    (List.Perm.pairwise_iff (fun h => keyNe_symm h) (drainClock_perm l)).2 hkeys
  exact ((drainClock_sorted l).and hne).imp (fun h => keyLt_of_keyLE_ne h.1 h.2)

theorem drainClock_order_independent (l l' : List ClockEntry)
    (hkeys : List.Pairwise keyNe l) (hperm : l.Perm l') :
    drainClock l' = drainClock l := by
  have hk' : List.Pairwise keyNe l' :=
    (List.Perm.pairwise_iff (fun h => keyNe_symm h) hperm).1 hkeys
  exact List.eq_of_perm_of_sorted
    (((drainClock_perm l').trans hperm.symm).trans (drainClock_perm l).symm)
    (drainClock_sorted_strict l' hk') (drainClock_sorted_strict l hkeys)

/-- C2: for any multiset of entries inserted into the scheduled queue with
pairwise distinct (timestamp, id) keys, the drain order is strictly ascending
in (timestamp, id), is a permutation of the insertions, and is independent of
arrival order. -/
theorem scheduled_queue_strict_order (l l' : List ClockEntry)
    (hkeys : List.Pairwise keyNe l) (hperm : l.Perm l') :
    List.Pairwise keyLt (drainClock l) ∧ (drainClock l).Perm l ∧
    drainClock l' = drainClock l :=
  ⟨drainClock_sorted_strict l hkeys, drainClock_perm l,
   drainClock_order_independent l l' hkeys hperm⟩

/-- The spec's example arrival order: timestamps 100, 50, 70 with ids
increasing in arrival order. -/
def exampleArrivals : List ClockEntry :=
  [⟨100, 1, false⟩, ⟨50, 2, false⟩, ⟨70, 3, false⟩]

/-- Witness for `scheduled_queue_strict_order`: the example delivers in order
50, 70, 100. -/
theorem scheduled_queue_strict_order_witness :
    drainClock exampleArrivals = [⟨50, 2, false⟩, ⟨70, 3, false⟩, ⟨100, 1, false⟩] ∧
    (List.Pairwise keyLt (drainClock exampleArrivals) ∧
      (drainClock exampleArrivals).Perm exampleArrivals ∧
      drainClock exampleArrivals = drainClock exampleArrivals) :=
  ⟨by decide,
   scheduled_queue_strict_order exampleArrivals exampleArrivals (by decide)
     (List.Perm.refl _)⟩

/-- A frame sitting in the FIFO `self._sink_queue`, reduced to its id and
whether it is an `EndFrame`. -/
structure QFrame where
  id : Nat
  isEnd : Bool
deriving DecidableEq

/-- Delivery order of the FIFO `_sink_task_handler` (lines 337-367): frames
are processed in queue order, and the loop breaks at the first `EndFrame`
(which is not re-pushed by the task). -/
def sinkDelivered (q : List QFrame) : List QFrame := q.takeWhile (fun f => !f.isEnd)

/-- Value of `sys.maxsize` on a 64-bit CPython; `stop()` enqueues the
`EndFrame` into the clock queue with this timestamp (line 95). -/
def sysMaxsize : Nat := 2 ^ 63 - 1

/-- Delivery order of `_sink_clock_task_handler` (lines 269-297): pop entries
in (timestamp, id) order and stop at the first `EndFrame` (`running = not
isinstance(frame, EndFrame)`), which is itself not pushed. -/
def clockDelivered (q : List ClockEntry) : List ClockEntry :=
  (drainClock q).takeWhile (fun e => !e.isEnd)

theorem takeWhile_append_all {α : Type} (p : α → Bool) :
    ∀ (a b : List α), (∀ x ∈ a, p x = true) →
      List.takeWhile p (a ++ b) = a ++ List.takeWhile p b := by
  intro a b
  induction a with
  | nil => intro _; simp
  | cons x xs ih =>
    intro h
    have hx : p x = true := h x (List.mem_cons_self x xs)
    simp only [List.cons_append, List.takeWhile_cons, hx, if_true]
    rw [ih (fun y hy => h y (List.mem_cons_of_mem x hy))]

/-- C4 as stated is violated by the scheduled queue: an entry enqueued after
the End sentinel, carrying a smaller (timestamp, id) key, is still popped
before the sentinel and delivered.  Arrival order below is the sentinel first
(timestamp `sys.maxsize`), then a timestamped frame; the late frame is
delivered anyway. -/
theorem scheduled_end_sentinel_counterexample :
    clockDelivered [⟨sysMaxsize, 1, true⟩, ⟨50, 2, false⟩] = [⟨50, 2, false⟩] := by decide

/-- C4 amended: every frame enqueued before the End sentinel is delivered
before the task shuts down (FIFO frames in queue order; scheduled entries with
timestamps below the sentinel's maximal key, as a permutation), and no frame
enqueued after the End sentinel is delivered from the FIFO queue — the
scheduled queue offers no such guarantee (see the counterexample). -/
theorem end_sentinel_flush_amended
    (before after : List QFrame) (endq : QFrame)
    (hb : ∀ f ∈ before, f.isEnd = false) (hq : endq.isEnd = true)
    (l : List ClockEntry) (endE : ClockEntry)
    (hEnd : endE.isEnd = true) (hTs : endE.timestamp = sysMaxsize)
    (hl : ∀ e ∈ l, e.isEnd = false ∧ e.timestamp < sysMaxsize)
    (hkeys : List.Pairwise keyNe (l ++ [endE])) :
    sinkDelivered (before ++ endq :: after) = before ∧
    (clockDelivered (l ++ [endE])).Perm l := by
  constructor
  · unfold sinkDelivered
    rw [takeWhile_append_all _ before (endq :: after) (by intro x hx; simp [hb x hx])]
    simp [List.takeWhile_cons, hq]
  · have hsplit : drainClock (l ++ [endE]) = drainClock l ++ [endE] := by
      apply List.eq_of_perm_of_sorted (r := keyLt)
      · exact (drainClock_perm (l ++ [endE])).trans
          (((drainClock_perm l).symm).append_right [endE])
      · exact drainClock_sorted_strict _ hkeys
      · show List.Pairwise keyLt (drainClock l ++ [endE])
        rw [List.pairwise_append]
        refine ⟨?_, by simp, ?_⟩
        · exact drainClock_sorted_strict l (List.pairwise_append.1 hkeys).1
        · intro a ha b hb'
          have ha' : a ∈ l := ((drainClock_perm l).mem_iff).1 ha
          have hblt : b = endE := by simpa using hb'
          subst hblt
          exact Or.inl (by rw [hTs]; exact (hl a ha').2)
    unfold clockDelivered
    rw [hsplit, takeWhile_append_all _ (drainClock l) [endE] ?hall]
    case hall =>
      intro x hx
      have hx' : x ∈ l := ((drainClock_perm l).mem_iff).1 hx
      simp [(hl x hx').1]
    simp only [List.takeWhile_cons, hEnd]
    simpa using drainClock_perm l

/-- Witness for `end_sentinel_flush_amended` at concrete inputs. -/
theorem end_sentinel_flush_amended_witness :
    sinkDelivered ([⟨1, false⟩] ++ ⟨2, true⟩ :: [⟨3, false⟩]) = [⟨1, false⟩] ∧
    (clockDelivered ([⟨50, 2, false⟩] ++ [⟨sysMaxsize, 1, true⟩])).Perm [⟨50, 2, false⟩] :=
  end_sentinel_flush_amended [⟨1, false⟩] [⟨3, false⟩] ⟨2, true⟩ (by decide) rfl
    [⟨50, 2, false⟩] ⟨sysMaxsize, 1, true⟩ rfl rfl (by decide) (by decide)

/-- A speaking-state transition frame pushed by the tracker; each transition
pushes one downstream copy (`upstream = false`) and one upstream copy. -/
inductive SpeakPush where
  | botStarted (upstream : Bool)
  | botStopped (upstream : Bool)
deriving DecidableEq

/-- State touched by `_handle_interruptions`, `_bot_started_speaking` and
`_bot_stopped_speaking`: the speaking flag, the audio accumulator, the three
task-owned queues, and the log of pushed speaking-transition frames. -/
structure TransportState where
  bot_speaking : Bool
  audio_buffer : List Nat
  sink_queue : List QFrame
  sink_clock_queue : List ClockEntry
  video_out_queue : List ImageFrame
  pushed : List SpeakPush
deriving DecidableEq

/-- Embedding of `_bot_started_speaking` (lines 222-227): only when not
already speaking, push `BotStartedSpeakingFrame` downstream and upstream and
set the flag. -/
def bot_started_speaking (s : TransportState) : TransportState :=
  if s.bot_speaking = false then
    { s with pushed := s.pushed ++ [.botStarted false, .botStarted true],
             bot_speaking := true }
  else s

/-- Embedding of `_bot_stopped_speaking` (lines 229-237): only when speaking,
push `BotStoppedSpeakingFrame` downstream and upstream, clear the flag and
clear the audio accumulator. -/
def bot_stopped_speaking (s : TransportState) : TransportState :=
  if s.bot_speaking = true then
    { s with pushed := s.pushed ++ [.botStopped false, .botStopped true],
             bot_speaking := false,
             audio_buffer := [] }
  else s

/-- Embedding of `_handle_interruptions` (lines 178-190): when interruptions
are allowed and the frame is a `StartInterruptionFrame`, cancel and recreate
the sink, clock and video tasks (each recreated task owns a fresh empty queue;
the video task exists only when video output is enabled) and then call
`_bot_stopped_speaking`. -/
def handle_interruptions (interruptions_allowed : Bool) (params : TransportParams)
    (isStartInterruption : Bool) (s : TransportState) : TransportState :=
  if interruptions_allowed = false then s
  else if isStartInterruption then
    bot_stopped_speaking
      { s with sink_queue := [], sink_clock_queue := [],
               video_out_queue :=
                 if params.video_out_enabled then [] else s.video_out_queue }
  else s

/-- C3 as stated is violated: on a start-interruption with the bot not
speaking, the audio accumulator is not cleared (the clear happens only inside
the `if self._bot_speaking` guard of `_bot_stopped_speaking`). -/
theorem interruption_buffer_counterexample :
    (handle_interruptions true exampleParams true
      ⟨false, [1], [], [], [], []⟩).audio_buffer = [1] ∧ [1] ≠ ([] : List Nat) := by decide

/-- C3 amended: on a start-interruption with interruptions allowed, the FIFO,
scheduled and (when video is enabled) video queues are recreated empty, a
stop-speaking transition is pushed if and only if the bot was speaking, and
the audio accumulator is cleared if and only if the bot was speaking
(otherwise it is retained). -/
theorem interruption_reset_amended (params : TransportParams) (s : TransportState) :
    (handle_interruptions true params true s).sink_queue = [] ∧
    (handle_interruptions true params true s).sink_clock_queue = [] ∧
    (handle_interruptions true params true s).video_out_queue =
      (if params.video_out_enabled then [] else s.video_out_queue) ∧
    (handle_interruptions true params true s).audio_buffer =
      (if s.bot_speaking then [] else s.audio_buffer) ∧
    (handle_interruptions true params true s).bot_speaking = false ∧
    (handle_interruptions true params true s).pushed = s.pushed ++
      (if s.bot_speaking then [.botStopped false, .botStopped true] else []) := by
  unfold handle_interruptions bot_stopped_speaking
  cases hs : s.bot_speaking <;> simp [hs]

/-- One invocation of the speaking-state tracker. -/
inductive SpeakCall where
  | started
  | stopped
deriving DecidableEq

/-- Dispatch of a tracker invocation. -/
def speak_step (s : TransportState) : SpeakCall → TransportState
  | .started => bot_started_speaking s
  | .stopped => bot_stopped_speaking s

/-- A sequence of tracker invocations. -/
def speak_run (s : TransportState) (calls : List SpeakCall) : TransportState :=
  calls.foldl speak_step s

theorem speak_run_started_id (n : Nat) :
    ∀ s : TransportState, s.bot_speaking = true →
      speak_run s (List.replicate n .started) = s := by
  induction n with
  | zero => intro s _; rfl
  | succ n ih =>
    intro s hs
    show speak_run (bot_started_speaking s) (List.replicate n .started) = s
    rw [bot_started_speaking, if_neg (by simp [hs])]
    exact ih s hs

theorem speak_run_stopped_id (n : Nat) :
    ∀ s : TransportState, s.bot_speaking = false →
      speak_run s (List.replicate n .stopped) = s := by
  induction n with
  | zero => intro s _; rfl
  | succ n ih =>
    intro s hs
    show speak_run (bot_stopped_speaking s) (List.replicate n .stopped) = s
    rw [bot_stopped_speaking, if_neg (by simp [hs])]
    exact ih s hs

/-- C7: transitions are edge-triggered.  A start (resp. stop) call is a no-op
when the flag already has the corresponding value, and any contiguous episode
of `n ≥ 1` identical calls starting from the opposite flag emits exactly one
transition pair (downstream and upstream). -/
theorem speaking_transitions_edge_triggered :
    (∀ s : TransportState, s.bot_speaking = true → bot_started_speaking s = s) ∧
    (∀ s : TransportState, s.bot_speaking = false → bot_stopped_speaking s = s) ∧
    (∀ (n : Nat) (s : TransportState), 0 < n → s.bot_speaking = false →
      (speak_run s (List.replicate n .started)).pushed =
        s.pushed ++ [.botStarted false, .botStarted true] ∧
      (speak_run s (List.replicate n .started)).bot_speaking = true) ∧
    (∀ (n : Nat) (s : TransportState), 0 < n → s.bot_speaking = true →
      (speak_run s (List.replicate n .stopped)).pushed =
        s.pushed ++ [.botStopped false, .botStopped true] ∧
      (speak_run s (List.replicate n .stopped)).bot_speaking = false) := by
  refine ⟨?_, ?_, ?_, ?_⟩
  · intro s hs; rw [bot_started_speaking, if_neg (by simp [hs])]
  · intro s hs; rw [bot_stopped_speaking, if_neg (by simp [hs])]
  · intro n s hn hs
    match n, hn with
    | n + 1, _ =>
      have hstep : speak_run s (List.replicate (n + 1) .started) =
          speak_run (bot_started_speaking s) (List.replicate n .started) := rfl
      rw [hstep, bot_started_speaking, if_pos hs,
        speak_run_started_id n _ (by simp)]
      exact ⟨rfl, rfl⟩
  · intro n s hn hs
    match n, hn with
    | n + 1, _ =>
      have hstep : speak_run s (List.replicate (n + 1) .stopped) =
          speak_run (bot_stopped_speaking s) (List.replicate n .stopped) := rfl
      rw [hstep, bot_stopped_speaking, if_pos hs,
        speak_run_stopped_id n _ (by simp)]
      exact ⟨rfl, rfl⟩

/-- Witness for `speaking_transitions_edge_triggered`: two consecutive start
calls from silence emit exactly one start pair; two consecutive stop calls
from speech emit exactly one stop pair. -/
theorem speaking_transitions_edge_triggered_witness :
    ((speak_run ⟨false, [], [], [], [], []⟩ (List.replicate 2 .started)).pushed =
      [] ++ [.botStarted false, .botStarted true] ∧
     (speak_run ⟨false, [], [], [], [], []⟩ (List.replicate 2 .started)).bot_speaking = true) ∧
    ((speak_run ⟨true, [], [], [], [], []⟩ (List.replicate 2 .stopped)).pushed =
      [] ++ [.botStopped false, .botStopped true] ∧
     (speak_run ⟨true, [], [], [], [], []⟩ (List.replicate 2 .stopped)).bot_speaking = false) :=
  ⟨speaking_transitions_edge_triggered.2.2.1 2 ⟨false, [], [], [], [], []⟩ (by decide) rfl,
   speaking_transitions_edge_triggered.2.2.2 2 ⟨true, [], [], [], [], []⟩ (by decide) rfl⟩

/-- Embedding of `TOTAL_CHUNK_MS = self._params.audio_out_10ms_chunks * 10`
(line 341). -/
def TOTAL_CHUNK_MS (chunks10ms : Nat) : Nat := chunks10ms * 10

/-- Embedding of `BOT_SPEAKING_CHUNK_PERIOD = max(int(200 / TOTAL_CHUNK_MS), 1)`
(line 342), with truncating float division modelled as Nat division. -/
def bot_speaking_chunk_period (chunks10ms : Nat) : Nat :=
  max (200 / TOTAL_CHUNK_MS chunks10ms) 1

/-- Pulse logic of one `_sink_task_handler` iteration (lines 347-353): on a
`TTSAudioRawFrame`, push a `BotSpeakingFrame` pair when
`bot_speaking_counter % BOT_SPEAKING_CHUNK_PERIOD == 0` and reset the counter,
then increment it; any other frame leaves the counter untouched.  Returns the
new counter and whether a pulse was pushed. -/
def sink_pulse_step (P counter : Nat) (isTTS : Bool) : Nat × Bool :=
  if isTTS then
    if counter % P = 0 then (0 + 1, true) else (counter + 1, false)
  else (counter, false)

/-- Pulse emissions of the FIFO task over a list of frames, reduced to their
`isTTS` flags, threading the counter. -/
def sink_pulse_run (P : Nat) : Nat → List Bool → List Bool
  | _, [] => []
  | c, f :: fs =>
    (sink_pulse_step P c f).2 :: sink_pulse_run P (sink_pulse_step P c f).1 fs

/-- Number of TTS audio chunks in a list of frames. -/
def ttsCount (flags : List Bool) : Nat := flags.countP (fun b => b)

theorem sink_pulse_run_getD (P : Nat) :
    ∀ (flags : List Bool) (c t : Nat), c % P = t % P →
      ∀ i, i < flags.length →
      (sink_pulse_run P c flags).getD i false =
        (flags.getD i false && decide ((t + ttsCount (flags.take i)) % P = 0)) := by
  intro flags
  induction flags with
  | nil => intro c t _ i hi; simp at hi
  | cons f fs ih =>
    intro c t hct i hi
    match i with
    | 0 =>
      show (sink_pulse_step P c f).2 = (f && decide ((t + ttsCount []) % P = 0))
      cases f with
      | false => simp [sink_pulse_step]
      | true =>
        simp only [sink_pulse_step, if_true, ttsCount, List.countP_nil, Nat.add_zero,
          Bool.true_and]
        by_cases hc : c % P = 0
        · rw [if_pos hc]
          simp [← hct, hc]
        · rw [if_neg hc]
          simp [← hct, hc]
    | i + 1 =>
      have hstep : ((sink_pulse_step P c f).1) % P = (if f then t + 1 else t) % P := by
        cases f with
        | false => simpa [sink_pulse_step] using hct
        | true =>
          simp only [sink_pulse_step, if_true]
          by_cases hc : c % P = 0
          · rw [if_pos hc]
            have ht : t % P = 0 := by rw [← hct]; exact hc
            simp only [if_true, Nat.zero_add]
            rw [Nat.add_mod, ht, Nat.zero_add]
            exact (Nat.mod_mod_of_dvd 1 dvd_rfl).symm
          · rw [if_neg hc]
            simp only [if_true]
            rw [Nat.add_mod, Nat.add_mod t, hct]
      have htail := ih (sink_pulse_step P c f).1 (if f then t + 1 else t) hstep i
        (by simpa using Nat.lt_of_succ_lt_succ hi)
      show (sink_pulse_run P (sink_pulse_step P c f).1 fs).getD i false = _
      rw [htail]
      have htake : ttsCount (List.take (i + 1) (f :: fs)) =
          (if f then 1 else 0) + ttsCount (fs.take i) := by
        cases f <;> simp [ttsCount, List.countP_cons] <;> omega
      show _ = ((f :: fs).getD (i + 1) false &&
        decide ((t + ttsCount (List.take (i + 1) (f :: fs))) % P = 0))
      rw [htake]
      have harg : (if f then t + 1 else t) + ttsCount (List.take i fs) =
          t + ((if f then 1 else 0) + ttsCount (fs.take i)) := by
        cases f <;> simp_arith
      rw [harg, List.getD_cons_succ]

/-- C8: pulses during continuous speech.  The throttling period is
`max(200 / (10 * audio_out_10ms_chunks), 1)`, and whenever two frames at
positions `i < j` both push a pulse, at least that many TTS audio chunks lie
in between, so pulses are never spaced closer than the period (and with a
period of 1, every TTS chunk may pulse). -/
theorem bot_speaking_pulse_throttled (chunks10ms : Nat) (flags : List Bool) (i j : Nat)
    (hij : i < j) (hj : j < flags.length)
    (hi2 : (sink_pulse_run (bot_speaking_chunk_period chunks10ms) 0 flags).getD i false = true)
    (hj2 : (sink_pulse_run (bot_speaking_chunk_period chunks10ms) 0 flags).getD j false
      = true) :
    bot_speaking_chunk_period chunks10ms = max (200 / (10 * chunks10ms)) 1 ∧
    bot_speaking_chunk_period chunks10ms ≤
      ttsCount (flags.take j) - ttsCount (flags.take i) := by
  set P := bot_speaking_chunk_period chunks10ms with hP
  refine ⟨by simp [hP, bot_speaking_chunk_period, TOTAL_CHUNK_MS, Nat.mul_comm], ?_⟩
  have hchar_i := sink_pulse_run_getD P flags 0 0 rfl i (by omega)
  have hchar_j := sink_pulse_run_getD P flags 0 0 rfl j hj
  rw [hi2] at hchar_i
  rw [hj2] at hchar_j
  have h1 : (flags.getD i false &&
      decide ((0 + ttsCount (flags.take i)) % P = 0)) = true := hchar_i.symm
  rw [Bool.and_eq_true] at h1
  have hfi : flags.getD i false = true := h1.1
  have hmi : ttsCount (flags.take i) % P = 0 := by simpa using of_decide_eq_true h1.2
  have h2 : (flags.getD j false &&
      decide ((0 + ttsCount (flags.take j)) % P = 0)) = true := hchar_j.symm
  rw [Bool.and_eq_true] at h2
  have hmj : ttsCount (flags.take j) % P = 0 := by simpa using of_decide_eq_true h2.2
  have hstrict : ttsCount (flags.take i) < ttsCount (flags.take j) := by
    have hsplit : flags.take j = flags.take i ++ (flags.drop i).take (j - i) := by
      rw [← List.take_add]
      congr 1
      omega
    have hdrop : flags.drop i = true :: flags.drop (i + 1) := by
      rw [List.drop_eq_getElem_cons (by omega : i < flags.length)]
      congr 1
      rw [← List.getD_eq_getElem flags false (by omega)]
      exact hfi
    have hji : j - i = (j - i - 1) + 1 := by omega
    rw [hsplit]
    simp only [ttsCount, List.countP_append]
    have hpos : 0 < List.countP (fun b => b) ((flags.drop i).take (j - i)) := by
      rw [hdrop, hji, List.take_succ_cons, List.countP_cons]
      simp
    omega
  have hdvd : P ∣ ttsCount (flags.take j) - ttsCount (flags.take i) :=
    Nat.dvd_sub' (Nat.dvd_of_mod_eq_zero hmj) (Nat.dvd_of_mod_eq_zero hmi)
  exact Nat.le_of_dvd (by omega) hdvd

/-- Witness for `bot_speaking_pulse_throttled`: with 2 chunks per 10 ms the
period is 10, and over 11 consecutive TTS chunks pulses fire at positions 0
and 10, exactly 10 TTS chunks apart. -/
theorem bot_speaking_pulse_throttled_witness :
    (0 : Nat) < 10 ∧ 10 < (List.replicate 11 true).length ∧
    (sink_pulse_run (bot_speaking_chunk_period 2) 0 (List.replicate 11 true)).getD 0 false
      = true ∧
    (sink_pulse_run (bot_speaking_chunk_period 2) 0 (List.replicate 11 true)).getD 10 false
      = true ∧
    (bot_speaking_chunk_period 2 = max (200 / (10 * 2)) 1 ∧
      bot_speaking_chunk_period 2 ≤
        ttsCount ((List.replicate 11 true).take 10) -
          ttsCount ((List.replicate 11 true).take 0)) :=
  ⟨by decide, by decide, by decide, by decide,
   bot_speaking_pulse_throttled 2 (List.replicate 11 true) 0 10 (by decide) (by decide)
     (by decide) (by decide)⟩

/-- Outcome of one iteration of `_sink_clock_task_handler`: either the queue
yields an entry whose per-frame handling may raise a non-cancellation
exception (`raises`), or an `asyncio.CancelledError` is delivered at an await
point of the iteration. -/
inductive ClockEvent where
  | item (e : ClockEntry) (raises : Bool)
  | cancelSignal
deriving DecidableEq

/-- How the clock task's loop ends. -/
inductive ClockExit where
  | reachedEnd
  | cancelled
  | exhausted
deriving DecidableEq

/-- Embedding of the `while running: try ... except asyncio.CancelledError:
raise except Exception: logger.exception(...)` loop of
`_sink_clock_task_handler` (lines 269-297): an `EndFrame` stops the loop; a
non-cancellation exception while handling one frame is logged, the frame is
not delivered, and the loop continues with subsequent frames; a
`CancelledError` re-raises immediately, terminating the task with nothing
further delivered.  Returns the delivered entries and how the loop ended. -/
def sink_clock_loop : List ClockEvent → List ClockEntry × ClockExit
  | [] => ([], .exhausted)
  | .cancelSignal :: _ => ([], .cancelled)
  | .item e r :: rest =>
    if e.isEnd then ([], .reachedEnd)
    else if r then sink_clock_loop rest
    else (e :: (sink_clock_loop rest).1, (sink_clock_loop rest).2)

/-- C9: a non-cancellation exception while handling a single (non-End) frame
leaves the rest of the run unchanged — the loop continues and the task
terminates exactly as it would have without that frame — while a cancellation
signal terminates the task immediately with nothing further delivered. -/
theorem clock_task_error_handling (e : ClockEntry) (rest : List ClockEvent)
    (hne : e.isEnd = false) :
    sink_clock_loop (.item e true :: rest) = sink_clock_loop rest ∧
    sink_clock_loop (.cancelSignal :: rest) = ([], .cancelled) := by
  constructor
  · simp [sink_clock_loop, hne]
  · rfl

/-- Witness for `clock_task_error_handling` at a concrete run. -/
theorem clock_task_error_handling_witness :
    (⟨5, 1, false⟩ : ClockEntry).isEnd = false ∧
    (sink_clock_loop [.item ⟨5, 1, false⟩ true, .item ⟨6, 2, false⟩ false] =
       sink_clock_loop [.item ⟨6, 2, false⟩ false] ∧
     sink_clock_loop (.cancelSignal :: [.item ⟨6, 2, false⟩ false]) = ([], .cancelled)) :=
  ⟨rfl, clock_task_error_handling ⟨5, 1, false⟩ [.item ⟨6, 2, false⟩ false] rfl⟩

/-- Pacing state of the live video pacer: `self._video_out_start_time`
(`None` before the first image of a run; wall-clock instants are modelled as
exact rationals) and `self._video_out_frame_index`. -/
structure LiveVideoState where
  video_out_start_time : Option ℚ
  video_out_frame_index : Nat

/-- Observable outcome of one `_video_out_is_live_handler` iteration: the new
pacing state, how long the iteration slept (if it did), whether the baseline
was resynchronized, and whether the image was rendered. -/
structure LiveStepResult where
  state : LiveVideoState
  slept : Option ℚ
  did_reset : Bool
  rendered : Bool

/-- Timing decision of `_video_out_is_live_handler` (lines 430-443), given the
established baseline `start` and frame index `idx`:
`delay_time = frame_duration + idx * frame_duration - (now - start)`;
if `abs(delay_time)` exceeds `frame_duration * 5` the baseline resets to now
and the index to zero; otherwise a positive delay is slept and the index
advances; the image is rendered in every branch. -/
def live_pacing_decision (frame_duration now start : ℚ) (idx : Nat) : LiveStepResult :=
  if frame_duration * 5 < |frame_duration + (idx : ℚ) * frame_duration - (now - start)| then
    { state := ⟨some now, 0⟩, slept := none, did_reset := true, rendered := true }
  else if 0 < frame_duration + (idx : ℚ) * frame_duration - (now - start) then
    { state := ⟨some start, idx + 1⟩,
      slept := some (frame_duration + (idx : ℚ) * frame_duration - (now - start)),
      did_reset := false, rendered := true }
  else
    { state := ⟨some start, idx⟩, slept := none, did_reset := false, rendered := true }

/-- Embedding of `_video_out_is_live_handler` (lines 422-445): on the first
image of a run (`if not self._video_out_start_time`) the baseline becomes now
and the index zero before the timing decision; afterwards the stored baseline
and index are used. -/
def video_out_is_live_handler (frame_duration now : ℚ) (s : LiveVideoState) : LiveStepResult :=
  match s.video_out_start_time with
  | none => live_pacing_decision frame_duration now now 0
  | some t => live_pacing_decision frame_duration now t s.video_out_frame_index

/-- C5 as stated is violated: with frame period 1, baseline 0, frame index 3
and now = 17/2, the claim's drift |frame_index * period - elapsed| = 11/2
exceeds 5 periods, yet the code does not resynchronize (its `delay_time` is
(3+1)*1 - 17/2 = -9/2, within the 5-period window), nor does it sleep. -/
theorem live_pacer_counterexample :
    (5 : ℚ) * 1 < |(3 : ℚ) * 1 - (17 / 2 - 0)| ∧
    (video_out_is_live_handler 1 (17 / 2) ⟨some 0, 3⟩).did_reset = false ∧
    (video_out_is_live_handler 1 (17 / 2) ⟨some 0, 3⟩).slept = none := by
  have habs : ¬((1 : ℚ) * 5 < |1 + ((3 : ℕ) : ℚ) * 1 - (17 / 2 - 0)|) := by
    rw [show (1 : ℚ) + ((3 : ℕ) : ℚ) * 1 - (17 / 2 - 0) = -(9 / 2) by push_cast; ring,
      abs_neg, abs_of_pos (by norm_num : (0 : ℚ) < 9 / 2)]
    norm_num
  have hpos : ¬((0 : ℚ) < 1 + ((3 : ℕ) : ℚ) * 1 - (17 / 2 - 0)) := by
    push_cast
    norm_num
  have hbranch : video_out_is_live_handler 1 (17 / 2) ⟨some 0, 3⟩ =
      ⟨⟨some 0, 3⟩, none, false, true⟩ := by
    show live_pacing_decision 1 (17 / 2) 0 3 = _
    unfold live_pacing_decision
    rw [if_neg habs, if_neg hpos]
  refine ⟨?_, ?_, ?_⟩
  · rw [show (3 : ℚ) * 1 - (17 / 2 - 0) = -(11 / 2) by norm_num, abs_neg,
      abs_of_pos (by norm_num : (0 : ℚ) < 11 / 2)]
    norm_num
  · rw [hbranch]
  · rw [hbranch]

/-- C5 amended: on every image after the first of a run, let drift be
`(frame_index + 1) * frame_period - elapsed` (the code's `delay_time`, which
includes the upcoming frame's period, rather than the claim's
`frame_index * frame_period - elapsed`).  The pacer resets its baseline and
index to now/zero exactly when |drift| exceeds 5 frame periods; otherwise,
when behind schedule (drift positive) it sleeps exactly the drift and
advances the index, and when drift is non-positive it neither sleeps nor
advances; the image is rendered in every branch. -/
theorem live_pacer_amended (d now st : ℚ) (idx : Nat) :
    ((video_out_is_live_handler d now ⟨some st, idx⟩).did_reset = true ↔
      5 * d < |((idx : ℚ) + 1) * d - (now - st)|) ∧
    ((video_out_is_live_handler d now ⟨some st, idx⟩).did_reset = true →
      (video_out_is_live_handler d now ⟨some st, idx⟩).state = ⟨some now, 0⟩ ∧
      (video_out_is_live_handler d now ⟨some st, idx⟩).slept = none) ∧
    (|((idx : ℚ) + 1) * d - (now - st)| ≤ 5 * d →
      0 < ((idx : ℚ) + 1) * d - (now - st) →
      (video_out_is_live_handler d now ⟨some st, idx⟩).slept =
        some (((idx : ℚ) + 1) * d - (now - st)) ∧
      (video_out_is_live_handler d now ⟨some st, idx⟩).state = ⟨some st, idx + 1⟩) ∧
    (|((idx : ℚ) + 1) * d - (now - st)| ≤ 5 * d →
      ((idx : ℚ) + 1) * d - (now - st) ≤ 0 →
      (video_out_is_live_handler d now ⟨some st, idx⟩).slept = none ∧
      (video_out_is_live_handler d now ⟨some st, idx⟩).state = ⟨some st, idx⟩) ∧
    (video_out_is_live_handler d now ⟨some st, idx⟩).rendered = true := by
  have hCD : ((idx : ℚ) + 1) * d - (now - st) = d + (idx : ℚ) * d - (now - st) := by ring
  have h5 : (5 : ℚ) * d = d * 5 := by ring
  rw [hCD, h5]
  have heq : video_out_is_live_handler d now ⟨some st, idx⟩ =
      live_pacing_decision d now st idx := rfl
  rw [heq]
  unfold live_pacing_decision
  split_ifs with h1 h2
  · exact ⟨by simp [h1], fun _ => ⟨rfl, rfl⟩,
      fun habs _ => absurd h1 (not_lt.2 habs),
      fun habs _ => absurd h1 (not_lt.2 habs), rfl⟩
  · exact ⟨by simp [h1], fun h => by simp at h, fun _ _ => ⟨rfl, rfl⟩,
      fun _ hle => absurd h2 (not_lt.2 hle), rfl⟩
  · exact ⟨by simp [h1], fun h => by simp at h, fun _ hpos => absurd hpos h2,
      fun _ _ => ⟨rfl, rfl⟩, rfl⟩

/-- Witness for `live_pacer_amended`: period 1, baseline 0, index 0, now 1/2 —
drift is 1/2, within the window and positive, so the pacer sleeps exactly 1/2
and advances the index. -/
theorem live_pacer_amended_witness :
    |(((0 : ℕ) : ℚ) + 1) * 1 - (1 / 2 - 0)| ≤ 5 * 1 ∧
    (0 : ℚ) < (((0 : ℕ) : ℚ) + 1) * 1 - (1 / 2 - 0) ∧
    ((video_out_is_live_handler 1 (1 / 2) ⟨some 0, 0⟩).slept =
        some ((((0 : ℕ) : ℚ) + 1) * 1 - (1 / 2 - 0)) ∧
      (video_out_is_live_handler 1 (1 / 2) ⟨some 0, 0⟩).state = ⟨some 0, 0 + 1⟩) :=
  ⟨by rw [show (((0 : ℕ) : ℚ) + 1) * 1 - (1 / 2 - 0) = 1 / 2 by push_cast; ring,
      abs_of_pos (by norm_num : (0 : ℚ) < 1 / 2)]; norm_num,
   by push_cast; norm_num,
   (live_pacer_amended 1 (1 / 2) 0 0).2.2.1
     (by rw [show (((0 : ℕ) : ℚ) + 1) * 1 - (1 / 2 - 0) = 1 / 2 by push_cast; ring,
        abs_of_pos (by norm_num : (0 : ℚ) < 1 / 2)]; norm_num)
     (by push_cast; norm_num)⟩

end Pipecat
